import Mathlib

/-!
Verification development for the `dql` expression language core
(lexer, precedence-climbing parser, dynamic value model, tree-walking
evaluator).  The definitions below are a shallow embedding of the Rust
sources under `src/`:

* `src/types.rs` — `Any`, `Str`, `Bytes`, `Number` with their
  `PartialEq`/`PartialOrd`/`Hash` impls and the arithmetic macro
  `impl_number_op!`;
* `src/expression/{mod,literals,math}.rs` — the expression nodes and
  their `evaluate` contract;
* `src/parser.rs` — the recursive-descent parser;
* `src/error.rs` — the error taxonomy and positional messages.

Modelling conventions:

* Machine integers `i64`/`u64` are `Int`/`Nat` with explicit two's
  complement wrapping (`i64wrap`, `u64wrap`) at every operation, exactly
  where the Rust code uses `Wrapping` or an `as` cast.
* `f64` is modelled as an exact rational in lowest terms (`F64`).
  IEEE-754 rounding, infinities, NaN and negative zero are not
  modelled; every theorem below that touches floats only exercises
  computations whose IEEE results are exact (small dyadic values),
  where the exact-rational model agrees with `f64` bit for bit.
* Rust panics (`todo!()`, integer division by zero through
  `Wrapping`) are a distinct outcome from `Err` returns: parsing and
  evaluation results live in `Except` with an explicit `panic`
  constructor, because `Result::Err` and a panic are observably
  different to the caller.
* `Str`/`Bytes` owned-vs-borrowed storage collapses to `String` /
  `List Nat`: the source defines equality, ordering, hashing and
  display purely on content (`as_str`/`as_ref`), so the storage split
  is invisible to every property below.
* `HashMap` is modelled as an association list with last-write-wins
  insertion; its iteration order is the list order.  All properties
  proved about maps are order-independent or quantify over orders.
-/

/-- Two's-complement wrap of an integer into the `i64` range
`[-2^63, 2^63)`, as performed by Rust's `Wrapping<i64>` operations and
`as i64` casts (`src/types.rs` `impl_number_op!`). -/
def i64wrap (z : Int) : Int := (z + 2 ^ 63) % 2 ^ 64 - 2 ^ 63

/-- Wrap of an integer into the `u64` range `[0, 2^64)`, as performed by
Rust's `Wrapping<u64>` operations and `as u64` casts. -/
def u64wrap (z : Int) : Nat := (z % 2 ^ 64).toNat

/-- Reinterpretation of a `u64` value as an `i64` (Rust `as i64`). -/
def u64asI64 (u : Nat) : Int := i64wrap u

/-- Reinterpretation of an `i64` value as a `u64` (Rust `as u64`). -/
def i64asU64 (i : Int) : Nat := u64wrap i

/-- The model of an `f64` value: an exact fraction `num / den` kept in
lowest terms with `den > 0` by every constructor below.  The pair
`⟨0, 0⟩` is a sentinel for the IEEE special values (`inf`/`NaN`), which
are otherwise unmodelled; no theorem below exercises them. -/
structure F64 where
  num : Int
  den : Nat
deriving DecidableEq, Repr

/-- Normalize a fraction to lowest terms with a positive denominator
(the canonical form every `F64` operation returns). -/
def f64norm (n : Int) (d : Nat) : F64 :=
  if d = 0 then ⟨0, 0⟩
  else
    let g := n.natAbs.gcd d
    ⟨n.tdiv (g : Int), d / g⟩

/-- Embed an integer as an `F64` (Rust `as f64` on an in-range value). -/
def F64.ofInt (i : Int) : F64 := ⟨i, 1⟩

/-- Exact `f64` addition. -/
def F64.add (a b : F64) : F64 :=
  f64norm (a.num * (b.den : Int) + b.num * (a.den : Int)) (a.den * b.den)

/-- Exact `f64` subtraction. -/
def F64.sub (a b : F64) : F64 :=
  f64norm (a.num * (b.den : Int) - b.num * (a.den : Int)) (a.den * b.den)

/-- Exact `f64` multiplication. -/
def F64.mul (a b : F64) : F64 := f64norm (a.num * b.num) (a.den * b.den)

/-- Exact `f64` division.  Division by zero yields the `⟨0, 0⟩`
sentinel (IEEE would give `inf`/`NaN`; unmodelled, unexercised). -/
def F64.div (a b : F64) : F64 :=
  if b.num = 0 then ⟨0, 0⟩
  else f64norm (a.num * (b.den : Int) * b.num.sign) (a.den * b.num.natAbs)

/-- Truncation toward zero (the integral part used by Rust's
`f64 as i64` / `f64 as u32` casts and by `fmod`). -/
def F64.trunc (a : F64) : Int := a.num.tdiv (a.den : Int)

/-- Rust `f64 % f64` (`fmod`): remainder with the sign of the
dividend: `a - b * trunc(a / b)`. -/
def F64.fmod (a b : F64) : F64 :=
  a.sub (b.mul (F64.ofInt ((a.div b).trunc)))

/-- Exact `f64` comparison: `a.num / a.den ≟ b.num / b.den` by
cross-multiplication (denominators are positive for all constructed
values). -/
def F64.cmp (a b : F64) : Ordering :=
  compare (a.num * (b.den : Int)) (b.num * (a.den : Int))

/-- `Number` from `src/types.rs`: `Float(f64) | Integer(i64) | UInteger(u64)`.
The `f64` payload is the exact-rational model `F64` (see the module
comment); the `i64`/`u64` payloads are `Int`/`Nat`, wrapped into range
by every operation exactly as the Rust code wraps them. -/
inductive Number where
  | float (q : F64)
  | integer (i : Int)
  | uinteger (u : Nat)
deriving DecidableEq, Repr

/-- True exactly on the `Integer` variant. -/
def Number.isInt : Number → Bool
  | .integer _ => true
  | _ => false

/-- True exactly on the `UInteger` variant. -/
def Number.isUInt : Number → Bool
  | .uinteger _ => true
  | _ => false

/-- True exactly on the `Float` variant. -/
def Number.isFloat : Number → Bool
  | .float _ => true
  | _ => false

/-- `Add for Number` generated by `impl_number_op!(Add, add, +)` in
`src/types.rs` (lines 417–439): float with anything promotes to float
(the other operand cast `as f64`); `Integer`/`Integer` and the two
mixed `Integer`/`UInteger` cases use `Wrapping<i64>` arithmetic with
the unsigned operand cast `as i64`, always producing an `Integer`;
`UInteger`/`UInteger` uses `Wrapping<u64>`. -/
def numberAdd : Number → Number → Number
  | .float a, .float b => .float (a.add b)
  | .float a, .integer b => .float (a.add (F64.ofInt b))
  | .float a, .uinteger b => .float (a.add (F64.ofInt b))
  | .integer a, .float b => .float ((F64.ofInt a).add b)
  | .integer a, .integer b => .integer (i64wrap (a + b))
  | .integer a, .uinteger b => .integer (i64wrap (a + u64asI64 b))
  | .uinteger a, .float b => .float ((F64.ofInt a).add b)
  | .uinteger a, .integer b => .integer (i64wrap (u64asI64 a + b))
  | .uinteger a, .uinteger b => .uinteger (u64wrap (a + b))

/-- `Sub for Number` from `impl_number_op!(Sub, sub, -)`. -/
def numberSub : Number → Number → Number
  | .float a, .float b => .float (a.sub b)
  | .float a, .integer b => .float (a.sub (F64.ofInt b))
  | .float a, .uinteger b => .float (a.sub (F64.ofInt b))
  | .integer a, .float b => .float ((F64.ofInt a).sub b)
  | .integer a, .integer b => .integer (i64wrap (a - b))
  | .integer a, .uinteger b => .integer (i64wrap (a - u64asI64 b))
  | .uinteger a, .float b => .float ((F64.ofInt a).sub b)
  | .uinteger a, .integer b => .integer (i64wrap (u64asI64 a - b))
  | .uinteger a, .uinteger b => .uinteger (u64wrap ((a : Int) - (b : Int)))

/-- `Mul for Number` from `impl_number_op!(Mul, mul, *)`. -/
def numberMul : Number → Number → Number
  | .float a, .float b => .float (a.mul b)
  | .float a, .integer b => .float (a.mul (F64.ofInt b))
  | .float a, .uinteger b => .float (a.mul (F64.ofInt b))
  | .integer a, .float b => .float ((F64.ofInt a).mul b)
  | .integer a, .integer b => .integer (i64wrap (a * b))
  | .integer a, .uinteger b => .integer (i64wrap (a * u64asI64 b))
  | .uinteger a, .float b => .float ((F64.ofInt a).mul b)
  | .uinteger a, .integer b => .integer (i64wrap (u64asI64 a * b))
  | .uinteger a, .uinteger b => .uinteger (u64wrap (a * b))

/-- `Div for Number` from `impl_number_op!(Div, div, /)`.  Integer
cases go through `Wrapping` division, which truncates toward zero and
**panics when the (cast) right operand is zero** — modelled as `none`.
Float cases use plain `f64` division (no panic). -/
def numberDiv : Number → Number → Option Number
  | .float a, .float b => some (.float (a.div b))
  | .float a, .integer b => some (.float (a.div (F64.ofInt b)))
  | .float a, .uinteger b => some (.float (a.div (F64.ofInt b)))
  | .integer a, .float b => some (.float ((F64.ofInt a).div b))
  | .integer a, .integer b =>
      if b = 0 then none else some (.integer (i64wrap (a.tdiv b)))
  | .integer a, .uinteger b =>
      if u64asI64 b = 0 then none
      else some (.integer (i64wrap (a.tdiv (u64asI64 b))))
  | .uinteger a, .float b => some (.float ((F64.ofInt a).div b))
  | .uinteger a, .integer b =>
      if b = 0 then none else some (.integer (i64wrap ((u64asI64 a).tdiv b)))
  | .uinteger a, .uinteger b =>
      if b = 0 then none else some (.uinteger (a / b))

/-- `Rem for Number` from `impl_number_op!(Rem, rem, %)`.  Integer
cases use `Wrapping` remainder (sign of the dividend), which **panics
when the (cast) right operand is zero** — modelled as `none`. -/
def numberRem : Number → Number → Option Number
  | .float a, .float b => some (.float (a.fmod b))
  | .float a, .integer b => some (.float (a.fmod (F64.ofInt b)))
  | .float a, .uinteger b => some (.float (a.fmod (F64.ofInt b)))
  | .integer a, .float b => some (.float ((F64.ofInt a).fmod b))
  | .integer a, .integer b =>
      if b = 0 then none else some (.integer (i64wrap (a.tmod b)))
  | .integer a, .uinteger b =>
      if u64asI64 b = 0 then none
      else some (.integer (i64wrap (a.tmod (u64asI64 b))))
  | .uinteger a, .float b => some (.float ((F64.ofInt a).fmod b))
  | .uinteger a, .integer b =>
      if b = 0 then none else some (.integer (i64wrap ((u64asI64 a).tmod b)))
  | .uinteger a, .uinteger b =>
      if b = 0 then none else some (.uinteger (a % b))

/-- `PartialEq for Number` (`src/types.rs` lines 480–506): float
compares after casting the other side to `f64`; `Integer`/`UInteger`
is `false` when the signed side is negative, otherwise compares in
unsigned space. -/
def numberEq : Number → Number → Bool
  | .float a, .float b => a == b
  | .float a, .integer b => a == F64.ofInt b
  | .float a, .uinteger b => a == F64.ofInt b
  | .integer a, .float b => F64.ofInt a == b
  | .integer a, .integer b => a == b
  | .integer a, .uinteger b => if a < 0 then false else i64asU64 a == b
  | .uinteger a, .float b => F64.ofInt a == b
  | .uinteger a, .integer b => if b < 0 then false else a == i64asU64 b
  | .uinteger a, .uinteger b => a == b

/-- `PartialOrd for Number` (`src/types.rs` lines 511–551): float
comparisons cast the other side to `f64`; a negative signed operand is
less than any unsigned operand, otherwise the comparison happens in
unsigned space. -/
def numberCmp : Number → Number → Option Ordering
  | .float a, .float b => some (a.cmp b)
  | .float a, .integer b => some (a.cmp (F64.ofInt b))
  | .float a, .uinteger b => some (a.cmp (F64.ofInt b))
  | .integer a, .float b => some ((F64.ofInt a).cmp b)
  | .integer a, .integer b => some (compare a b)
  | .integer a, .uinteger b =>
      if a < 0 then some .lt else some (compare (i64asU64 a) b)
  | .uinteger a, .float b => some ((F64.ofInt a).cmp b)
  | .uinteger a, .integer b =>
      if b < 0 then some .gt else some (compare a (i64asU64 b))
  | .uinteger a, .uinteger b => some (compare a b)

/-- `Any` from `src/types.rs` (lines 9–18): the dynamic tagged value.
`Str`/`Bytes` collapse to content (`String` / byte list) since every
operation on them is content-based; `Map` is an association list
modelling `HashMap<Str, Any>` (unique keys by construction,
last-write-wins). -/
inductive Any where
  | null
  | str (s : String)
  | bytes (b : List Nat)
  | number (n : Number)
  | bool (b : Bool)
  | list (xs : List Any)
  | map (m : List (String × Any))
deriving Repr

/-- The variant index of an `Any` value (which constructor it is);
cross-variant behavior of `eq`/`partial_cmp` is stated in terms of it. -/
def Any.variantTag : Any → Nat
  | .null => 0
  | .str _ => 1
  | .bytes _ => 2
  | .number _ => 3
  | .bool _ => 4
  | .list _ => 5
  | .map _ => 6

/-- Key lookup in the association-list model of `HashMap`:
`other.get(key)`. -/
def mapGet (m : List (String × Any)) (k : String) : Option Any :=
  match m with
  | [] => none
  | (k2, v) :: rest => if k2 = k then some v else mapGet rest k

mutual

/-- `PartialEq for Any` (`src/types.rs` lines 155–168): same-variant
pairs delegate to the component equality, every cross-variant pair is
`false`. -/
def anyEq : Any → Any → Bool
  | .null, .null => true
  | .str a, .str b => a == b
  | .bytes a, .bytes b => a == b
  | .number a, .number b => numberEq a b
  | .bool a, .bool b => a == b
  | .list a, .list b => listEq a b
  | .map a, .map b => a.length == b.length && mapSubEq a b
  | _, _ => false

/-- `PartialEq for Vec<Any>`: equal lengths and element-wise equality. -/
def listEq : List Any → List Any → Bool
  | [], [] => true
  | x :: xs, y :: ys => anyEq x y && listEq xs ys
  | _, _ => false

/-- The per-entry half of `PartialEq for HashMap<Str, Any>`: every
entry of the left map is present in the right map with an equal
value. -/
def mapSubEq : List (String × Any) → List (String × Any) → Bool
  | [], _ => true
  | (k, v) :: rest, m2 =>
      (match mapGet m2 k with
       | some v2 => anyEq v v2
       | none => false)
      && mapSubEq rest m2

end

mutual

/-- `PartialOrd for Any` (`src/types.rs` lines 172–186): `Null` equals
`Null` and orders below every other value; same-variant pairs delegate;
every other pair (including `Map`/`Map`, which has no arm) is
incomparable (`None`). -/
def anyCmp : Any → Any → Option Ordering
  | .null, .null => some .eq
  | .null, _ => some .lt
  | _, .null => some .gt
  | .str a, .str b => some (compare a b)
  | .bytes a, .bytes b => some (compare a b)
  | .number a, .number b => numberCmp a b
  | .bool a, .bool b => some (compare a b)
  | .list a, .list b => listCmp a b
  | _, _ => none

/-- `PartialOrd for Vec<Any>` (Rust slice lexicographic comparison):
compare element-wise, returning the first non-`Equal` result (`None`
included), then compare lengths. -/
def listCmp : List Any → List Any → Option Ordering
  | [], [] => some .eq
  | [], _ :: _ => some .lt
  | _ :: _, [] => some .gt
  | x :: xs, y :: ys =>
      match anyCmp x y with
      | some .eq => listCmp xs ys
      | o => o

end

/-- The byte content of a string as fed to the hasher
(`str.as_str().as_bytes()`), modelled by codepoints: two strings have
equal byte content exactly when they are equal as strings, which is the
only property the hashing theorems use. -/
def strBytes (s : String) : List Nat := s.data.map Char.toNat

/-- One write performed against a `Hasher` by a `Hash` impl.  Two
values hash equal under every hasher exactly when they perform the same
writes, so "hash value" is modelled as the list of writes.  `fbits q`
models `state.write_u64(f.to_bits())` for a float: `to_bits` is kept
abstract as an injective tag of the rational, distinct from the plain
`u64` writes of the integer variants (faithful for every non-integral
finite float, e.g. the bit pattern of `1.0` is neither `1` nor any
small integer). -/
inductive HashEvt where
  | bytes (bs : List Nat)
  | u64 (v : Nat)
  | fbits (q : F64)
deriving DecidableEq, Repr

/-- A concrete stand-in mixing function for `DefaultHasher` (SipHash is
not modelled; every theorem only uses that the digest is a function of
the written stream). -/
def natMix (a b : Nat) : Nat := (a * 1000003 + b) % 2 ^ 64

/-- Stand-in digest of one write event. -/
def evtHash : HashEvt → Nat
  | .bytes bs => bs.foldl natMix 1
  | .u64 v => natMix 2 v
  | .fbits q =>
      natMix 3 (natMix q.num.natAbs (natMix (if q.num < 0 then 1 else 0) q.den))

/-- Stand-in for `DefaultHasher::finish` after a stream of writes
(models `h.finish()` in the map arm of `Hash for Any`). -/
def finishHash (es : List HashEvt) : Nat :=
  es.foldl (fun a e => natMix a (evtHash e)) 0

/-- `Hash for Number` (`src/types.rs` lines 561–569): a float writes
`to_bits` as a `u64`; an integer writes itself (`write_i64`, i.e. the
same eight bytes as `write_u64(i as u64)`); an unsigned writes itself
(`write_u64`). -/
def numberHashEvt : Number → HashEvt
  | .float q => .fbits q
  | .integer i => .u64 (i64asU64 i)
  | .uinteger u => .u64 u

mutual

/-- `Hash for Any` (`src/types.rs` lines 188–211), as the stream of
hasher writes it performs: `Null` writes the byte `0`; strings/bytes
write their content; a bool writes one byte; a list writes its length
prefix then each element (Rust's slice `Hash`); a map XOR-combines one
fresh `DefaultHasher` digest per entry (key bytes then value writes)
and writes the combined `u64` — making it independent of iteration
order. -/
def hashStream : Any → List HashEvt
  | .null => [.bytes [0]]
  | .str s => [.bytes (strBytes s)]
  | .bytes b => [.bytes b]
  | .number n => [numberHashEvt n]
  | .bool b => [.bytes [if b then 1 else 0]]
  | .list xs => .u64 xs.length :: listStream xs
  | .map m => [.u64 (mapHash m)]

/-- The concatenated write stream of a list's elements. -/
def listStream : List Any → List HashEvt
  | [] => []
  | x :: xs => hashStream x ++ listStream xs

/-- The XOR-combine of per-entry digests in the map arm of
`Hash for Any`. -/
def mapHash : List (String × Any) → Nat
  | [] => 0
  | (k, v) :: rest =>
      Nat.xor (finishHash (.bytes (strBytes k) :: hashStream v)) (mapHash rest)

end

/-- `Error` from `src/error.rs`: the error taxonomy.  `InvalidQuery`
carries the formatted message (positional context included). -/
inductive Error where
  | invalidType
  | invalidQuery (msg : String)
  | expressionError (msg : String)
  | unexpectedEOF
deriving DecidableEq, Repr

/-- `Error::with_history` (`src/error.rs` lines 15–21): renders
`[ <consumed> █ <pending> ]: <msg>` when text remains pending, and
`[ <consumed> ] <msg>` otherwise. -/
def Error.withHistory (msg past future : String) : Error :=
  if future = "" then .invalidQuery ("[ " ++ past ++ " ] " ++ msg)
  else .invalidQuery ("[ " ++ past ++ " █ " ++ future ++ " ]: " ++ msg)

/-- `Error::unexpected_eof` (`src/error.rs` lines 23–25): despite the
dedicated `UnexpectedEOF` variant, the constructor actually used by the
parser returns `InvalidQuery` with this message. -/
def Error.unexpectedEof (past : String) : Error :=
  .invalidQuery ("unexpected EOF at: \x22" ++ past ++ "\x22")

/-- The outcome of an evaluation that did not return `Ok`: either a
returned `Err` (`rerr`) or a Rust panic (`todo!()` or a trapping
arithmetic operation), which aborts rather than returns. -/
inductive EvalErr where
  | rerr (e : Error)
  | panic
deriving DecidableEq, Repr

/-- `Expr` from `src/expression/mod.rs` (`expr_impl!` lines 51–65): the
closed sum of expression node kinds.  `MapLiteral`'s children live in a
`HashMap<String, _>`, modelled as an association list with unique keys
by construction. -/
inductive Expr where
  | stringLit (s : String)
  | numberLit (n : Number)
  | boolLit (b : Bool)
  | nullExpr
  | mapLit (entries : List (String × Expr))
  | listLit (es : List Expr)
  | addE (l r : Expr)
  | subE (l r : Expr)
  | mulE (l r : Expr)
  | divE (l r : Expr)
  | modE (l r : Expr)
  | expE (l r : Expr)
  | subExprE (e : Expr)
deriving Repr

/-- `TryFrom<Any> for Number` (`impl_any_try_from!(Number, Number)` in
`src/types.rs`): narrow to the `Number` variant or fail with
`Error::InvalidType`. -/
def toNumber : Any → Except Error Number
  | .number n => .ok n
  | _ => .error .invalidType

/-- Lift a returned `Err` into the evaluation outcome. -/
def liftErr : Except Error α → Except EvalErr α
  | .ok a => .ok a
  | .error e => .error (.rerr e)

/-- `From<Number> for i64` (`impl_number_from!` in `src/types.rs`):
`num as i64` on each payload — a float truncates toward zero and
saturates at the `i64` bounds, an unsigned reinterprets its bits. -/
def i64fromNumber : Number → Int
  | .float q =>
      let t := q.trunc
      if t < -(2 ^ 63) then -(2 ^ 63)
      else if t ≥ 2 ^ 63 then 2 ^ 63 - 1 else t
  | .integer i => i
  | .uinteger u => u64asI64 u

/-- `From<Number> for u32`: `num as u32` — a float truncates and
saturates into `[0, 2^32)`, the integer payloads wrap modulo `2^32`. -/
def u32fromNumber : Number → Nat
  | .float q =>
      let t := q.trunc
      if t < 0 then 0 else if t ≥ 2 ^ 32 then 2 ^ 32 - 1 else t.toNat
  | .integer i => (i % 2 ^ 32).toNat
  | .uinteger u => u % 2 ^ 32

mutual

/-- The evaluation contract of every node
(`src/expression/{literals,math}.rs`).  No implemented node reads the
container argument, so it is omitted: every literal evaluates to its
value, the binary arithmetic nodes evaluate left, narrow it to
`Number`, evaluate right, narrow it, and apply the `Number` operator
(division/modulus panic on a zero integer divisor); the exponent node
computes `i64::from(left).pow(u32::from(right))` with wrapping
multiplication (release-profile semantics); `SubExpression` passes
through; map/list literals drop children whose evaluation returns an
error (a panicking child still aborts the whole evaluation). -/
def evalExpr : Expr → Except EvalErr Any
  | .stringLit s => .ok (.str s)
  | .numberLit n => .ok (.number n)
  | .boolLit b => .ok (.bool b)
  | .nullExpr => .ok .null
  | .subExprE e => evalExpr e
  | .addE l r => do
      let lv ← evalExpr l
      let ln ← liftErr (toNumber lv)
      let rv ← evalExpr r
      let rn ← liftErr (toNumber rv)
      pure (.number (numberAdd ln rn))
  | .subE l r => do
      let lv ← evalExpr l
      let ln ← liftErr (toNumber lv)
      let rv ← evalExpr r
      let rn ← liftErr (toNumber rv)
      pure (.number (numberSub ln rn))
  | .mulE l r => do
      let lv ← evalExpr l
      let ln ← liftErr (toNumber lv)
      let rv ← evalExpr r
      let rn ← liftErr (toNumber rv)
      pure (.number (numberMul ln rn))
  | .divE l r => do
      let lv ← evalExpr l
      let ln ← liftErr (toNumber lv)
      let rv ← evalExpr r
      let rn ← liftErr (toNumber rv)
      match numberDiv ln rn with
      | some n => pure (.number n)
      | none => throw .panic
  | .modE l r => do
      let lv ← evalExpr l
      let ln ← liftErr (toNumber lv)
      let rv ← evalExpr r
      let rn ← liftErr (toNumber rv)
      match numberRem ln rn with
      | some n => pure (.number n)
      | none => throw .panic
  | .expE l r => do
      let lv ← evalExpr l
      let ln ← liftErr (toNumber lv)
      let rv ← evalExpr r
      let rn ← liftErr (toNumber rv)
      pure (.number (.integer (i64wrap (i64fromNumber ln ^ u32fromNumber rn))))
  | .mapLit entries => do
      let vs ← evalEntries entries
      pure (.map vs)
  | .listLit es => do
      let vs ← evalItems es
      pure (.list vs)

/-- `MapLiteral::evaluate` (`src/expression/literals.rs` lines
218–228): `filter_map` over the entries — a child returning `Err` is
dropped silently, an `Ok` child is kept, a panicking child aborts. -/
def evalEntries : List (String × Expr) → Except EvalErr (List (String × Any))
  | [] => pure []
  | (k, e) :: rest =>
      match evalExpr e with
      | .ok v => do
          let tail ← evalEntries rest
          pure ((k, v) :: tail)
      | .error .panic => throw .panic
      | .error (.rerr _) => evalEntries rest

/-- `ListLiteral::evaluate` (`src/expression/literals.rs` lines
283–293): same drop-on-error `filter_map` over the element list. -/
def evalItems : List Expr → Except EvalErr (List Any)
  | [] => pure []
  | e :: rest =>
      match evalExpr e with
      | .ok v => do
          let tail ← evalItems rest
          pure (v :: tail)
      | .error .panic => throw .panic
      | .error (.rerr _) => evalItems rest

end

/-- The string consisting of one single-quote character
(`STRING_WRAP` in `src/parser.rs`). -/
def squote : String := "\x27"

/-- Modelled from the spec: the character classes of the lexer
(`src/lexor.rs` is not present in the repository snapshot; only its
callers are).  Spec §4.1: punctuation characters that double as
operators/wrappers — parentheses, braces, brackets, comma, colon, the
three quote characters and the arithmetic symbols — are themselves
single-character tokens. -/
def isPunctTok (c : Char) : Bool :=
  c = '(' || c = ')' || c = Char.ofNat 123 || c = Char.ofNat 125 ||
  c = '[' || c = ']' || c = ',' || c = ':' ||
  c = Char.ofNat 39 || c = Char.ofNat 34 || c = Char.ofNat 96 ||
  c = '+' || c = '-' || c = '*' || c = '/' || c = '%' || c = '^'

/-- Modelled from the spec: tokenization (spec §4.1) — a pure
split-on-delimiter scan: whitespace separates tokens and is dropped,
each punctuation character is its own token, maximal runs of the
remaining characters form tokens.  `cur` holds the current token's
characters in reverse. -/
def tokenizeAux : List Char → List Char → List String
  | [], cur => if cur.isEmpty then [] else [String.mk cur.reverse]
  | c :: rest, cur =>
      if c.isWhitespace then
        (if cur.isEmpty then [] else [String.mk cur.reverse]) ++ tokenizeAux rest []
      else if isPunctTok c then
        (if cur.isEmpty then [] else [String.mk cur.reverse]) ++
          [String.mk [c]] ++ tokenizeAux rest []
      else tokenizeAux rest (c :: cur)

/-- Modelled from the spec: `Lexer::from(&str)` followed by repeated
`token()` — the whole token stream of a source string. -/
def tokenize (s : String) : List String := tokenizeAux s.data []

/-- The parser's view of the lexer: the not-yet-consumed tokens and the
already-consumed ones (most recent first).  The `consumed()`/`future()`
substrings used for diagnostics are modelled by re-joining the tokens
with single spaces (the spec trims surrounding whitespace; exact
interior spacing of the original source is not reconstructed). -/
structure PState where
  toks : List String
  done : List String
deriving Repr

/-- The `consumed()` half of `Parser::history`. -/
def PState.past (s : PState) : String := String.intercalate " " s.done.reverse

/-- The `future()` half of `Parser::history`. -/
def PState.future (s : PState) : String := String.intercalate " " s.toks

/-- A parsing outcome that is not `Ok`: a returned `Err`, a Rust panic
(the `todo!()` stub in `parse_unwrapped_expression`), or fuel
exhaustion — the last is purely a modelling artifact bounding the
recursion of the shallow embedding and corresponds to no behavior of
the source. -/
inductive ParseErr where
  | perr (e : Error)
  | panic
  | fuelOut
deriving DecidableEq, Repr

/-- `str::to_uppercase`, modelled as per-character uppercasing (the
tokens compared case-insensitively are ASCII keywords and punctuation,
where this is exact). -/
def strUpper (s : String) : String := String.mk (s.data.map Char.toUpper)

/-- The `peak!` macro: look at the next token without consuming. -/
def peakT (s : PState) : Option String := s.toks.head?

/-- Consume one token (the `consume!` macro). -/
def pstAdvance : PState → PState
  | ⟨[], d⟩ => ⟨[], d⟩
  | ⟨t :: ts, d⟩ => ⟨ts, t :: d⟩

/-- The `must_token!` macro: consume and return the next token, or
fail with `Error::unexpected_eof(history)` when the stream is
exhausted. -/
def mustToken (s : PState) : Except ParseErr (String × PState) :=
  match s.toks with
  | [] => .error (.perr (Error.unexpectedEof s.past))
  | t :: ts => .ok (t, ⟨ts, t :: s.done⟩)

/-- The `consume_next!` macro: consume the next token and check it
case-insensitively against the expected one, else fail with
`expected "…" but got "…"`. -/
def consumeNext (s : PState) (expected : String) : Except ParseErr PState :=
  match mustToken s with
  | .error e => .error e
  | .ok (v, s2) =>
      if strUpper v = expected then .ok s2
      else .error (.perr (Error.withHistory
        ("expected \x22" ++ expected ++ "\x22 but got \x22" ++ v ++ "\x22")
        s2.past s2.future))

/-- The `continue_if!` macro: consume the next token and report `true`
when it case-insensitively matches, else leave the stream unchanged. -/
def continueIf (s : PState) (expected : String) : Bool × PState :=
  match peakT s with
  | some v => if strUpper v = expected then (true, pstAdvance s) else (false, s)
  | none => (false, s)

/-- `Parser::string_literal` (`src/parser.rs` lines 335–347): consume
the opening quote; an immediately following quote yields the empty
string; otherwise take the next token verbatim as content and require a
closing quote. -/
def pStringLiteral (s : PState) : Except ParseErr (String × PState) := do
  let s ← consumeNext s squote
  match continueIf s squote with
  | (true, s) => pure ("", s)
  | (false, s) => do
      let (v, s) ← mustToken s
      let s ← consumeNext s squote
      pure (v, s)

/-- The number of `.` characters in a token
(`chars.filter(|c| *c == '.').count()` in `Parser::number_literal`). -/
def dotCount (tok : String) : Nat := tok.data.countP (· = '.')

/-- The numeric value of a digit run. -/
def digitsVal (cs : List Char) : Nat :=
  cs.foldl (fun a c => a * 10 + (c.toNat - 48)) 0

/-- `i64::from_str`: optional sign, at least one digit, value within
the signed 64-bit range; the error strings mirror `ParseIntError`'s
messages. -/
def i64FromStr (tok : String) : Except String Int :=
  let signed : Int × List Char :=
    match tok.data with
    | c :: rest =>
        if c = '-' then (-1, rest)
        else if c = '+' then (1, rest) else (1, tok.data)
    | [] => (1, [])
  if signed.2.isEmpty then .error "cannot parse integer from empty string"
  else if !(signed.2.all Char.isDigit) then .error "invalid digit found in string"
  else
    let v : Int := signed.1 * digitsVal signed.2
    if v < -(2 ^ 63) then .error "number too small to fit in target type"
    else if v > 2 ^ 63 - 1 then .error "number too large to fit in target type"
    else .ok v

/-- `f64::from_str`, modelled on plain decimal forms (optional sign,
digits with at most one `.`, at least one digit): the value is read as
an exact rational.  Exponent notation and the `inf`/`NaN` spellings are
unmodelled and rejected; no token exercised below uses them. -/
def f64FromStr (tok : String) : Except String F64 :=
  let signed : Int × List Char :=
    match tok.data with
    | c :: rest =>
        if c = '-' then (-1, rest)
        else if c = '+' then (1, rest) else (1, tok.data)
    | [] => (1, [])
  let intPart := signed.2.takeWhile (· ≠ '.')
  let rest := signed.2.drop intPart.length
  let fracPart := rest.drop 1
  if rest ≠ [] && rest.head? ≠ some '.' then .error "invalid float literal"
  else if fracPart.any (· = '.') then .error "invalid float literal"
  else if !(intPart.all Char.isDigit) || !(fracPart.all Char.isDigit) then
    .error "invalid float literal"
  else if intPart.isEmpty && fracPart.isEmpty then .error "invalid float literal"
  else .ok (f64norm (signed.1 * digitsVal (intPart ++ fracPart)) (10 ^ fracPart.length))

/-- The core of `Parser::number_literal` (`src/parser.rs` lines
350–367) on an already-consumed token: float when the token contains
exactly one `.`, else a signed 64-bit integer; a parse failure becomes
an invalid-query error naming the expected kind. -/
def numberLiteralTok (tok past future : String) : Except Error Number :=
  if dotCount tok = 1 then
    match f64FromStr tok with
    | .ok q => .ok (.float q)
    | .error e => .error (Error.withHistory ("expected float but got " ++ e) past future)
  else
    match i64FromStr tok with
    | .ok i => .ok (.integer i)
    | .error e => .error (Error.withHistory ("expected integer but got " ++ e) past future)

/-- `Parser::number_literal`: consume the token, then parse it. -/
def pNumberLiteral (s : PState) : Except ParseErr (Number × PState) := do
  let (tok, s) ← mustToken s
  match numberLiteralTok tok s.past s.future with
  | .ok n => pure (n, s)
  | .error e => .error (.perr e)

/-- `Parser::bool_literal` (`src/parser.rs` lines 369–382). -/
def pBoolLiteral (s : PState) : Except ParseErr (Bool × PState) := do
  let (v, s) ← mustToken s
  let v := strUpper v
  if v = "TRUE" then pure (true, s)
  else if v = "FALSE" then pure (false, s)
  else .error (.perr (Error.withHistory
    ("expected TRUE or FALSE but got " ++ v) s.past s.future))

/-- `Parser::null` (`src/parser.rs` lines 329–332). -/
def pNull (s : PState) : Except ParseErr (Expr × PState) := do
  let s ← consumeNext s "NULL"
  pure (.nullExpr, s)

/-- `HashMap::insert` on the association-list model: replace the value
of an existing key in place, otherwise append. -/
def insertAssoc (m : List (String × Expr)) (k : String) (v : Expr) :
    List (String × Expr) :=
  match m with
  | [] => [(k, v)]
  | (k2, v2) :: rest =>
      if k2 = k then (k2, v) :: rest else (k2, v2) :: insertAssoc rest k v

/-- `Parser::parse_unwrapped_expression` (`src/parser.rs` lines
319–326): a token starting with a digit or `-` is a number literal;
anything else — the stubbed identifier/path extension point — hits
`todo!()`, which panics. -/
def pUnwrapped (s : PState) : Except ParseErr (Expr × PState) :=
  match ((peakT s).getD "").data with
  | c :: _ =>
      if c.isDigit || c = '-' then do
        let (n, s) ← pNumberLiteral s
        pure (.numberLit n, s)
      else .error .panic
  | [] => .error .panic

mutual

/-- `Parser::expression` (`src/parser.rs` line 205): entry point, hands
off to the additive precedence level.  The `Nat` argument is fuel
bounding recursion depth (a modelling artifact; exhaustion is the
distinguished outcome `fuelOut`). -/
def pExpression : Nat → PState → Except ParseErr (Expr × PState)
  | 0, _ => .error .fuelOut
  | fuel + 1, s => pAdd fuel s

termination_by structural n _ => n

/-- `Parser::parse_expression_add` (lines 212–233): parse one
multiplicative expression, then loop on `+`/`-`. -/
def pAdd : Nat → PState → Except ParseErr (Expr × PState)
  | 0, _ => .error .fuelOut
  | fuel + 1, s => do
      let (e, s) ← pMul fuel s
      pAddLoop fuel e s

termination_by structural n _ => n

/-- The `loop` of `parse_expression_add`: left-associated `+`/`-`
chains (any other next token, end of input included, breaks). -/
def pAddLoop : Nat → Expr → PState → Except ParseErr (Expr × PState)
  | 0, _, _ => .error .fuelOut
  | fuel + 1, e, s =>
      match peakT s with
      | some "+" => do
          let (r, s) ← pMul fuel (pstAdvance s)
          pAddLoop fuel (.addE e r) s
      | some "-" => do
          let (r, s) ← pMul fuel (pstAdvance s)
          pAddLoop fuel (.subE e r) s
      | _ => pure (e, s)

termination_by structural n _ _ => n

/-- `Parser::parse_expression_multiply` (lines 238–264): parse one
exponent expression, then loop on `*`/`/`/`%`. -/
def pMul : Nat → PState → Except ParseErr (Expr × PState)
  | 0, _ => .error .fuelOut
  | fuel + 1, s => do
      let (e, s) ← pExp fuel s
      pMulLoop fuel e s

termination_by structural n _ => n

/-- The `loop` of `parse_expression_multiply`. -/
def pMulLoop : Nat → Expr → PState → Except ParseErr (Expr × PState)
  | 0, _, _ => .error .fuelOut
  | fuel + 1, e, s =>
      match peakT s with
      | some "*" => do
          let (r, s) ← pExp fuel (pstAdvance s)
          pMulLoop fuel (.mulE e r) s
      | some "/" => do
          let (r, s) ← pExp fuel (pstAdvance s)
          pMulLoop fuel (.divE e r) s
      | some "%" => do
          let (r, s) ← pExp fuel (pstAdvance s)
          pMulLoop fuel (.modE e r) s
      | _ => pure (e, s)

termination_by structural n _ _ => n

/-- `Parser::parse_expression_exponent` (lines 269–285): parse one
atom, then loop on `^` — left-associative exactly like the other
levels. -/
def pExp : Nat → PState → Except ParseErr (Expr × PState)
  | 0, _ => .error .fuelOut
  | fuel + 1, s => do
      let (e, s) ← pAtom fuel s
      pExpLoop fuel e s

termination_by structural n _ => n

/-- The `loop` of `parse_expression_exponent`. -/
def pExpLoop : Nat → Expr → PState → Except ParseErr (Expr × PState)
  | 0, _, _ => .error .fuelOut
  | fuel + 1, e, s =>
      match peakT s with
      | some "^" => do
          let (r, s) ← pAtom fuel (pstAdvance s)
          pExpLoop fuel (.expE e r) s
      | _ => pure (e, s)

termination_by structural n _ _ => n

/-- `Parser::parse_expression` (lines 290–317): atom dispatch on the
upper-cased next token — parenthesized sub-expression, string literal,
map literal, list literal, boolean, null, and otherwise the unwrapped
path. -/
def pAtom : Nat → PState → Except ParseErr (Expr × PState)
  | 0, _ => .error .fuelOut
  | fuel + 1, s =>
      let u := strUpper ((peakT s).getD "")
      if u = "(" then do
        let (e, s) ← pExpression fuel (pstAdvance s)
        let s ← consumeNext s ")"
        pure (.subExprE e, s)
      else if u = squote then do
        let (v, s) ← pStringLiteral s
        pure (.stringLit v, s)
      else if u = "\x7b" then do
        let (m, s) ← pMapLiteral fuel s
        pure (.mapLit m, s)
      else if u = "[" then do
        let (l, s) ← pListLiteral fuel s
        pure (.listLit l, s)
      else if u = "TRUE" then do
        let (b, s) ← pBoolLiteral s
        pure (.boolLit b, s)
      else if u = "FALSE" then do
        let (b, s) ← pBoolLiteral s
        pure (.boolLit b, s)
      else if u = "NULL" then pNull s
      else pUnwrapped s

termination_by structural n _ => n

/-- `Parser::map_literal` (lines 384–409): consume `{`, then the
entry loop — the first `'key': expression` pair is parsed
unconditionally before any closing brace is considered. -/
def pMapLiteral : Nat → PState → Except ParseErr (List (String × Expr) × PState)
  | 0, _ => .error .fuelOut
  | fuel + 1, s => do
      let s ← consumeNext s "\x7b"
      pMapLoop fuel [] s

termination_by structural n _ => n

/-- The `loop` of `map_literal`: parse `'key' : expression`, insert it
(last write wins), then dispatch on the next token — `}` ends, `,`
continues, anything else is a syntax error naming both accepted
continuations. -/
def pMapLoop : Nat → List (String × Expr) → PState →
    Except ParseErr (List (String × Expr) × PState)
  | 0, _, _ => .error .fuelOut
  | fuel + 1, acc, s => do
      let (key, s) ← pStringLiteral s
      let s ← consumeNext s ":"
      let (v, s) ← pExpression fuel s
      let acc2 := insertAssoc acc key v
      let (tok, s) ← mustToken s
      if tok = "\x7d" then pure (acc2, s)
      else if tok = "," then pMapLoop fuel acc2 s
      else .error (.perr (Error.withHistory
        ("expected , or \x7d but got " ++ tok) s.past s.future))

termination_by structural n _ _ => n

/-- `Parser::list_literal` (lines 411–433): consume `[`, then the
element loop — the first element expression is parsed unconditionally
before any closing bracket is considered. -/
def pListLiteral : Nat → PState → Except ParseErr (List Expr × PState)
  | 0, _ => .error .fuelOut
  | fuel + 1, s => do
      let s ← consumeNext s "["
      pListLoop fuel [] s

termination_by structural n _ => n

/-- The `loop` of `list_literal`. -/
def pListLoop : Nat → List Expr → PState → Except ParseErr (List Expr × PState)
  | 0, _, _ => .error .fuelOut
  | fuel + 1, acc, s => do
      let (v, s) ← pExpression fuel s
      let acc2 := acc ++ [v]
      let (tok, s) ← mustToken s
      if tok = "]" then pure (acc2, s)
      else if tok = "," then pListLoop fuel acc2 s
      else .error (.perr (Error.withHistory
        ("expected , or ] but got " ++ tok) s.past s.future))

termination_by structural n _ _ => n

end

/-- Parse a whole source string (`Parser::from(s)` then
`Parser::expression`), with ample fuel for every input exercised
below. -/
def parseExprS (src : String) : Except ParseErr Expr :=
  match pExpression 200 ⟨tokenize src, []⟩ with
  | .ok (e, _) => .ok e
  | .error e => .error e

/-- One observable for "parse then evaluate a query string". -/
inductive QueryOut where
  | ok (v : Any)
  | parseErr (e : Error)
  | evalErr (e : Error)
  | panic
  | fuelOut
deriving Repr

/-- Parse a source string and evaluate the resulting expression
(no implemented node reads the container, which is therefore not a
parameter; both panics — parse-time `todo!()` and evaluation-time
traps — collapse into `panic`). -/
def parseEval (src : String) : QueryOut :=
  match parseExprS src with
  | .ok e =>
      match evalExpr e with
      | .ok v => .ok v
      | .error (.rerr e2) => .evalErr e2
      | .error .panic => .panic
  | .error (.perr e) => .parseErr e
  | .error .panic => .panic
  | .error .fuelOut => .fuelOut

/-- The `Debug` text of the float payload.  For integral values Rust
prints `<n>.0` (the only shape any display property could exercise);
non-integral values are rendered as a fraction here — an approximation
of Rust's shortest-roundtrip formatting, unused by every theorem
below. -/
def f64Debug (q : F64) : String :=
  if q.den = 1 then toString q.num ++ ".0"
  else toString q.num ++ "/" ++ toString q.den

/-- `Display for Number` (`src/types.rs` lines 553–559) delegates to
the derived `Debug`, printing the variant name around the payload
(the source carries a `TODO: This needs to be syntactically correct`
comment on exactly this impl). -/
def numberDebug : Number → String
  | .float q => "Float(" ++ f64Debug q ++ ")"
  | .integer i => "Integer(" ++ toString i ++ ")"
  | .uinteger u => "UInteger(" ++ toString u ++ ")"

mutual

/-- The `Display` contract of every node
(`src/expression/literals.rs`, `src/expression/math.rs`): a string
literal re-wraps in quotes; a number literal prints `Display for
Number`, i.e. the `Debug` text; booleans print `true`/`false`;
`NullExpression` prints its derived `Debug`, the bare type name; the
binary nodes print `left <op> right` (the exponent node literally
prints `EXPONENT` via `stringify!(EXPONENT)`); parentheses re-wrap.
Map/list literals print `{:?}` of their children — approximated here,
unused by every theorem. -/
def displayExpr : Expr → String
  | .stringLit s => squote ++ s ++ squote
  | .numberLit n => numberDebug n
  | .boolLit b => if b then "true" else "false"
  | .nullExpr => "NullExpression"
  | .mapLit entries => "\x7b" ++ displayEntries entries ++ "\x7d"
  | .listLit es => "[" ++ displayItems es ++ "]"
  | .addE l r => displayExpr l ++ " + " ++ displayExpr r
  | .subE l r => displayExpr l ++ " - " ++ displayExpr r
  | .mulE l r => displayExpr l ++ " * " ++ displayExpr r
  | .divE l r => displayExpr l ++ " / " ++ displayExpr r
  | .modE l r => displayExpr l ++ " % " ++ displayExpr r
  | .expE l r => displayExpr l ++ " EXPONENT " ++ displayExpr r
  | .subExprE e => "(" ++ displayExpr e ++ ")"

/-- Debug-style rendering of map-literal children (approximation,
unused by theorems). -/
def displayEntries : List (String × Expr) → String
  | [] => ""
  | [(k, v)] => "\x22" ++ k ++ "\x22: " ++ displayExpr v
  | (k, v) :: rest =>
      "\x22" ++ k ++ "\x22: " ++ displayExpr v ++ ", " ++ displayEntries rest

/-- Debug-style rendering of list-literal children (approximation,
unused by theorems). -/
def displayItems : List Expr → String
  | [] => ""
  | [v] => displayExpr v
  | v :: rest => displayExpr v ++ ", " ++ displayItems rest

end

/-- True exactly when an evaluation outcome is a panic (used to state
"no child panics" hypotheses decidably). -/
def isPanicRes : Except EvalErr Any → Bool
  | .error .panic => true
  | _ => false

/-- The entry transformer inside `MapLiteral::evaluate`'s `filter_map`:
keep `(key, value)` when the child evaluates to `Ok`, drop it
otherwise. -/
def evalKeep (p : String × Expr) : Option (String × Any) :=
  match evalExpr p.2 with
  | .ok v => some (p.1, v)
  | _ => none

/-- `msg` contains `sub` as a substring (stated constructively). -/
def strMentions (sub msg : String) : Prop := ∃ a b, msg = a ++ sub ++ b

/-- True exactly when a number-literal parse produced a float. -/
def isFloatOkRes : Except Error Number → Bool
  | .ok (.float _) => true
  | _ => false

mutual

/-- No `Float` payload occurs anywhere in the value (the amended C7
restricts to this fragment: `Hash for Number` writes a float's raw IEEE
bits, so numerically-equal float/integer pairs need not hash equal). -/
def noFloatA : Any → Bool
  | .null => true
  | .str _ => true
  | .bytes _ => true
  | .number n => !n.isFloat
  | .bool _ => true
  | .list xs => noFloatL xs
  | .map m => noFloatM m

/-- `noFloatA` over a list's elements. -/
def noFloatL : List Any → Bool
  | [] => true
  | x :: xs => noFloatA x && noFloatL xs

/-- `noFloatA` over a map's values. -/
def noFloatM : List (String × Any) → Bool
  | [] => true
  | (_, v) :: rest => noFloatA v && noFloatM rest

end

/-- `k` does not occur among the keys. -/
def keyFree (k : String) : List (String × Any) → Bool
  | [] => true
  | (k2, _) :: rest => (k2 != k) && keyFree k rest

/-- Pairwise-distinct keys: the invariant every `HashMap` (modelled as
an association list) satisfies by construction. -/
def keysNodupB : List (String × Any) → Bool
  | [] => true
  | (k, _) :: rest => keyFree k rest && keysNodupB rest

mutual

/-- Well-formedness of the association-list model: every nested map has
pairwise-distinct keys (true of every value a Rust `HashMap` can
represent). -/
def wfA : Any → Bool
  | .null => true
  | .str _ => true
  | .bytes _ => true
  | .number _ => true
  | .bool _ => true
  | .list xs => wfL xs
  | .map m => keysNodupB m && wfM m

/-- `wfA` over a list's elements. -/
def wfL : List Any → Bool
  | [] => true
  | x :: xs => wfA x && wfL xs

/-- `wfA` over a map's values. -/
def wfM : List (String × Any) → Bool
  | [] => true
  | (_, v) :: rest => wfA v && wfM rest

end

/-- The digest one map entry contributes to the XOR-combine: a fresh
hasher fed the key's bytes and then the value's writes. -/
def entryFinish (p : String × Any) : Nat :=
  finishHash (.bytes (strBytes p.1) :: hashStream p.2)

instance : LeftCommutative Nat.xor :=
  ⟨fun a b c => by
    show a ^^^ (b ^^^ c) = b ^^^ (a ^^^ c)
    rw [← Nat.xor_assoc, Nat.xor_comm a b, Nat.xor_assoc]⟩

/-- If no entry's child panics, `MapLiteral::evaluate`'s loop returns
exactly the `filter_map` of the entries. -/
theorem evalEntries_of_no_panic (entries : List (String × Expr))
    (h : entries.all (fun p => !(isPanicRes (evalExpr p.2))) = true) :
    evalEntries entries = .ok (entries.filterMap evalKeep) := by
  induction entries with
  | nil => rfl
  | cons p rest ih =>
      obtain ⟨k, e⟩ := p
      simp only [List.all_cons, Bool.and_eq_true] at h
      have ih2 := ih h.2
      cases hev : evalExpr e with
      | ok v =>
          simp [evalEntries, hev, ih2, evalKeep, List.filterMap_cons,
            Bind.bind, Except.bind, pure, Except.pure]
      | error err =>
          cases err with
          | panic => exact absurd h.1 (by simp [isPanicRes, hev])
          | rerr e2 =>
              simp [evalEntries, hev, ih2, evalKeep, List.filterMap_cons]

/-- If no element panics, `ListLiteral::evaluate`'s loop returns
exactly the `filter_map` of the elements. -/
theorem evalItems_of_no_panic (es : List Expr)
    (h : es.all (fun e => !(isPanicRes (evalExpr e))) = true) :
    evalItems es = .ok (es.filterMap (fun e => (evalExpr e).toOption)) := by
  induction es with
  | nil => rfl
  | cons e rest ih =>
      simp only [List.all_cons, Bool.and_eq_true] at h
      have ih2 := ih h.2
      cases hev : evalExpr e with
      | ok v =>
          simp [evalItems, hev, ih2, List.filterMap_cons, Except.toOption,
            Bind.bind, Except.bind, pure, Except.pure]
      | error err =>
          cases err with
          | panic => exact absurd h.1 (by simp [isPanicRes, hev])
          | rerr e2 =>
              simp [evalItems, hev, ih2, List.filterMap_cons, Except.toOption]

/-- C1, counterexample: the claim says that when the signed operand is
non-negative, `Integer + UInteger` is computed in unsigned space and
returns a `UInteger`; but the compiled `impl_number_op!` arm
(`src/types.rs` line 429) always casts the unsigned operand to `i64`
and returns an `Integer`: `Integer(1) + UInteger(2)` is `Integer(3)`,
not a `UInteger`. -/
theorem c1_mixed_arith_counterexample :
    numberAdd (.integer 1) (.uinteger 2) = .integer 3 ∧
    (numberAdd (.integer 1) (.uinteger 2)).isUInt = false ∧
    (0 : Int) ≤ 1 := by
  refine ⟨by decide, by decide, by decide⟩

/-- C1 (amended): for every mixed `Integer`/`UInteger` pair and every
arithmetic operator, the live code (`impl_number_op!` in
`src/types.rs`) always computes in signed space — the operation equals
the corresponding `Integer`/`Integer` operation with the unsigned
operand reinterpreted as `i64` — and (for the non-panicking operators)
always returns an `Integer`, regardless of the signed operand's sign.
(The sign-dependent branch the claim describes exists only in
`src/number.rs`, which is not part of the crate's module tree.) -/
theorem c1_mixed_arith_always_signed (a : Int) (b : Nat) :
    numberAdd (.integer a) (.uinteger b)
        = numberAdd (.integer a) (.integer (u64asI64 b)) ∧
    numberAdd (.uinteger b) (.integer a)
        = numberAdd (.integer (u64asI64 b)) (.integer a) ∧
    numberSub (.integer a) (.uinteger b)
        = numberSub (.integer a) (.integer (u64asI64 b)) ∧
    numberSub (.uinteger b) (.integer a)
        = numberSub (.integer (u64asI64 b)) (.integer a) ∧
    numberMul (.integer a) (.uinteger b)
        = numberMul (.integer a) (.integer (u64asI64 b)) ∧
    numberMul (.uinteger b) (.integer a)
        = numberMul (.integer (u64asI64 b)) (.integer a) ∧
    numberDiv (.integer a) (.uinteger b)
        = numberDiv (.integer a) (.integer (u64asI64 b)) ∧
    numberDiv (.uinteger b) (.integer a)
        = numberDiv (.integer (u64asI64 b)) (.integer a) ∧
    numberRem (.integer a) (.uinteger b)
        = numberRem (.integer a) (.integer (u64asI64 b)) ∧
    numberRem (.uinteger b) (.integer a)
        = numberRem (.integer (u64asI64 b)) (.integer a) ∧
    (numberAdd (.integer a) (.uinteger b)).isInt = true ∧
    (numberAdd (.uinteger b) (.integer a)).isInt = true ∧
    (numberMul (.integer a) (.uinteger b)).isInt = true ∧
    (numberSub (.uinteger b) (.integer a)).isInt = true :=
  ⟨rfl, rfl, rfl, rfl, rfl, rfl, rfl, rfl, rfl, rfl, rfl, rfl, rfl, rfl⟩

/-- C2: for all 64-bit signed pairs, `Integer(a) + Integer(b)` is a
total operation (the model function returns a value for every input —
no panic path exists in this arm) whose result is the two's-complement
wraparound sum: it lies in the `i64` range and agrees with `a + b`
modulo `2^64`; in particular `Integer(i64::MAX) + Integer(1)` is
`Integer(i64::MIN)`. -/
theorem c2_integer_add_wraps (a b : Int)
    (ha : -(2 ^ 63) ≤ a ∧ a < 2 ^ 63) (hb : -(2 ^ 63) ≤ b ∧ b < 2 ^ 63) :
    numberAdd (.integer a) (.integer b) = .integer (i64wrap (a + b)) ∧
    -(2 ^ 63) ≤ i64wrap (a + b) ∧ i64wrap (a + b) < 2 ^ 63 ∧
    (i64wrap (a + b) - (a + b)) % 2 ^ 64 = 0 ∧
    numberAdd (.integer (2 ^ 63 - 1)) (.integer 1) = .integer (-(2 ^ 63)) := by
  refine ⟨rfl, ?_, ?_, ?_, by decide⟩ <;> (unfold i64wrap; omega)

/-- C2 witness at a concrete in-range pair. -/
theorem c2_integer_add_wraps_witness :
    numberAdd (.integer (2 ^ 63 - 1)) (.integer 1) = .integer (-(2 ^ 63)) :=
  (c2_integer_add_wraps 0 0 ⟨by norm_num, by norm_num⟩
    ⟨by norm_num, by norm_num⟩).2.2.2.2

/-- C3, counterexample: the claimed instance is wrong — evaluating the
parse of `{'a': 1, 'b': 1/0}` does not produce `Ok({'a': 1})`: the
child `1/0` is integer division by zero, which panics (aborts) inside
the map literal's `filter_map` instead of returning the `Err` that
would be dropped. -/
theorem c3_failing_child_counterexample :
    parseEval "\x7b\x27a\x27: 1, \x27b\x27: 1/0\x7d" = .panic := rfl

/-- C3 (amended): map and list literal evaluation silently omits every
child whose evaluation returns an `Err` and keeps the remaining
children (so `{'a': 1, 'b': 'x'+1}`, whose `'b'` child fails with an
invalid-type error, yields a map holding only `'a': 1`) — but a child
whose evaluation panics (such as `1/0`) aborts the whole evaluation
rather than being dropped, so the claim's own `1/0` instance aborts. -/
theorem c3_failing_children_dropped (entries : List (String × Expr))
    (es : List Expr)
    (hm : entries.all (fun p => !(isPanicRes (evalExpr p.2))) = true)
    (hl : es.all (fun e => !(isPanicRes (evalExpr e))) = true) :
    evalExpr (.mapLit entries) = .ok (.map (entries.filterMap evalKeep)) ∧
    evalExpr (.listLit es) =
      .ok (.list (es.filterMap (fun e => (evalExpr e).toOption))) ∧
    parseEval "\x7b\x27a\x27: 1, \x27b\x27: \x27x\x27+1\x7d" =
      .ok (.map [("a", .number (.integer 1))]) ∧
    parseEval "\x7b\x27a\x27: 1, \x27b\x27: 1/0\x7d" = .panic := by
  refine ⟨?_, ?_, rfl, rfl⟩
  · simp [evalExpr, evalEntries_of_no_panic entries hm, Bind.bind,
      Except.bind, pure, Except.pure]
  · simp [evalExpr, evalItems_of_no_panic es hl, Bind.bind,
      Except.bind, pure, Except.pure]

/-- C3 witness: concrete entries with no panicking child. -/
theorem c3_failing_children_dropped_witness :
    ([("a", Expr.numberLit (Number.integer 1)),
       ("b", Expr.addE (.stringLit "x") (.numberLit (.integer 1)))].all
        (fun p => !(isPanicRes (evalExpr p.2))) = true) ∧
    evalExpr (.mapLit [("a", Expr.numberLit (Number.integer 1)),
        ("b", Expr.addE (.stringLit "x") (.numberLit (.integer 1)))]) =
      .ok (.map [("a", .number (.integer 1))]) :=
  ⟨rfl, (c3_failing_children_dropped
    [("a", Expr.numberLit (Number.integer 1)),
      ("b", Expr.addE (.stringLit "x") (.numberLit (.integer 1)))]
    [] rfl rfl).1⟩

/-- C4: the no-panic contract is the spec's stated intent, but the code
panics on reachable inputs: evaluating `1/0` hits `Wrapping<i64>`
division by zero (a trap, not an `Err`), and parsing the atom `abc` —
neither a keyword nor numeric — hits the explicit `todo!()` in
`parse_unwrapped_expression`.  (Exponent evaluation itself is total in
this model.) -/
theorem c4_panics_on_reachable_inputs :
    parseEval "1/0" = .panic ∧
    parseEval "abc" = .panic ∧
    evalExpr (.divE (.numberLit (.integer 1)) (.numberLit (.integer 0))) =
      .error .panic ∧
    evalExpr (.modE (.numberLit (.integer 7)) (.numberLit (.integer 0))) =
      .error .panic :=
  ⟨rfl, rfl, rfl, rfl⟩

/-- C5: the parser precedence-climbs with `+`/`-` loosest, `*`/`/`/`%`
tighter, `^` tightest, each level left-associative: the spec's example
parses to the expected tree and evaluates to `Number(-489.5)` (the
exact rational `-979/2`), and `2^3^2` associates as `(2^3)^2 = 64`. -/
theorem c5_precedence_climbing :
    parseExprS "34-66*11+(45^2)/10.0" =
      .ok (.addE
        (.subE (.numberLit (.integer 34))
          (.mulE (.numberLit (.integer 66)) (.numberLit (.integer 11))))
        (.divE
          (.subExprE (.expE (.numberLit (.integer 45))
            (.numberLit (.integer 2))))
          (.numberLit (.float ⟨10, 1⟩)))) ∧
    parseEval "34-66*11+(45^2)/10.0" = .ok (.number (.float ⟨-979, 2⟩)) ∧
    parseExprS "2^3^2" =
      .ok (.expE (.expE (.numberLit (.integer 2)) (.numberLit (.integer 3)))
        (.numberLit (.integer 2))) ∧
    parseEval "2^3^2" = .ok (.number (.integer 64)) ∧
    parseEval "2-3-4" = .ok (.number (.integer (-5))) ∧
    parseEval "25/2" = .ok (.number (.integer 12)) :=
  ⟨rfl, rfl, rfl, rfl, rfl, rfl⟩

/-- A successful `i64::from_str` result is within the signed 64-bit
range. -/
theorem i64FromStr_range (tok : String) (i : Int)
    (h : i64FromStr tok = .ok i) : -(2 ^ 63) ≤ i ∧ i ≤ 2 ^ 63 - 1 := by
  unfold i64FromStr at h
  repeat' first
    | split at h
    | (dsimp only at h; split at h)
  all_goals first
    | (injection h with h; omega)
    | exact absurd h (by simp)

/-- Any message routed through `Error::with_history` mentions the
message it wraps (whichever positional rendering fires). -/
theorem withHistory_mentions (msg sub rest past future : String)
    (hmsg : msg = sub ++ rest) :
    ∃ m, Error.withHistory msg past future = .invalidQuery m ∧
      strMentions sub m := by
  unfold Error.withHistory
  by_cases hfu : future = ""
  · rw [if_pos hfu]
    refine ⟨_, rfl, "[ " ++ past ++ " ] ", rest, ?_⟩
    rw [hmsg]
    simp [String.append_assoc]
  · rw [if_neg hfu]
    refine ⟨_, rfl, "[ " ++ past ++ " █ " ++ future ++ " ]: ", rest, ?_⟩
    rw [hmsg]
    simp [String.append_assoc]

/-- C6: a consumed numeric token produces a float literal exactly when
it contains exactly one `.` character (and the float parse succeeds);
with one dot the outcome is a float or an invalid-query error
mentioning `expected float`; otherwise the outcome is an in-range
signed 64-bit integer or an invalid-query error mentioning
`expected integer`. -/
theorem c6_number_literal_kind (tok past future : String) :
    (isFloatOkRes (numberLiteralTok tok past future) = true ↔
      dotCount tok = 1 ∧ ∃ q, f64FromStr tok = .ok q) ∧
    (dotCount tok = 1 →
      (∃ q, numberLiteralTok tok past future = .ok (.float q)) ∨
      (∃ m, numberLiteralTok tok past future = .error (.invalidQuery m) ∧
        strMentions "expected float" m)) ∧
    (dotCount tok ≠ 1 →
      (∃ i, numberLiteralTok tok past future = .ok (.integer i) ∧
        -(2 ^ 63) ≤ i ∧ i ≤ 2 ^ 63 - 1) ∨
      (∃ m, numberLiteralTok tok past future = .error (.invalidQuery m) ∧
        strMentions "expected integer" m)) := by
  by_cases hd : dotCount tok = 1
  · cases hf : f64FromStr tok with
    | ok q =>
        refine ⟨?_, fun _ => .inl ⟨q, ?_⟩, fun hne => absurd hd hne⟩
        · simp [numberLiteralTok, hd, hf, isFloatOkRes]
        · simp [numberLiteralTok, hd, hf]
    | error e =>
        obtain ⟨m, hm, hmen⟩ := withHistory_mentions
          ("expected float but got " ++ e) "expected float"
          (" but got " ++ e) past future rfl
        refine ⟨?_, fun _ => .inr ⟨m, ?_, hmen⟩, fun hne => absurd hd hne⟩
        · simp [numberLiteralTok, hd, hf, isFloatOkRes, hm]
        · simp [numberLiteralTok, hd, hf, hm]
  · cases hf : i64FromStr tok with
    | ok i =>
        have hr := i64FromStr_range tok i hf
        refine ⟨?_, fun h1 => absurd h1 hd, fun _ => .inl ⟨i, ?_, hr.1, hr.2⟩⟩
        · simp [numberLiteralTok, hd, hf, isFloatOkRes]
        · simp [numberLiteralTok, hd, hf]
    | error e =>
        obtain ⟨m, hm, hmen⟩ := withHistory_mentions
          ("expected integer but got " ++ e) "expected integer"
          (" but got " ++ e) past future rfl
        refine ⟨?_, fun h1 => absurd h1 hd, fun _ => .inr ⟨m, ?_, hmen⟩⟩
        · simp [numberLiteralTok, hd, hf, isFloatOkRes, hm]
        · simp [numberLiteralTok, hd, hf, hm]

/-- C6 witness at the concrete tokens `3.5` (one dot, parses float) and
`12` (no dot). -/
theorem c6_number_literal_kind_witness :
    isFloatOkRes (numberLiteralTok "3.5" "p" "f") = true ∧
    isFloatOkRes (numberLiteralTok "12" "p" "f") = false :=
  ⟨(c6_number_literal_kind "3.5" "p" "f").1.mpr
      ⟨by decide, ⟨⟨7, 2⟩, rfl⟩⟩,
    rfl⟩

/-- C8: equality and ordering on `Any` are defined only between
same-variant pairs — every cross-variant pair compares not-equal and
incomparable (`partial_cmp = None`) — except `Null`, which equals only
`Null` and orders strictly below every non-`Null` value (and every
non-`Null` value orders strictly above `Null`). -/
theorem c8_variant_eq_ord (x y : Any) (h : x.variantTag ≠ y.variantTag) :
    anyEq x y = false ∧
    (x = .null → anyCmp x y = some .lt) ∧
    (y = .null → anyCmp x y = some .gt) ∧
    (x ≠ .null → y ≠ .null → anyCmp x y = none) ∧
    anyEq Any.null Any.null = true ∧
    anyCmp Any.null Any.null = some .eq := by
  cases x <;> cases y <;> simp_all [Any.variantTag, anyEq, anyCmp]

/-- C8 witness at a concrete cross-variant pair. -/
theorem c8_variant_eq_ord_witness :
    anyEq (.bool true) (.str "a") = false ∧
    anyCmp (.bool true) (.str "a") = none ∧
    anyCmp .null (.str "a") = some .lt :=
  ⟨(c8_variant_eq_ord (.bool true) (.str "a") (by decide)).1,
    (c8_variant_eq_ord (.bool true) (.str "a") (by decide)).2.2.2.1
      (fun hc => Any.noConfusion hc) (fun hc => Any.noConfusion hc),
    (c8_variant_eq_ord .null (.str "a") (by decide)).2.1 rfl⟩

/-- C9: the display/parse round trip claimed by the spec fails on the
code for number and null literals — their `Display` goes through the
derived `Debug` (the source marks these impls `TODO: This needs to be
syntactically correct`), so `NumberLiteral(Integer(34))` renders as
`Integer(34)` and `NullExpression` renders as `NullExpression`, both of
which re-parse into the `todo!()` panic path rather than reproducing
the value; the round trip does hold for string and boolean literals. -/
theorem c9_display_roundtrip_broken :
    displayExpr (.numberLit (.integer 34)) = "Integer(34)" ∧
    parseExprS "Integer(34)" = .error .panic ∧
    displayExpr Expr.nullExpr = "NullExpression" ∧
    parseExprS "NullExpression" = .error .panic ∧
    displayExpr (.stringLit "hello") = squote ++ "hello" ++ squote ∧
    parseEval (displayExpr (.stringLit "hello")) = .ok (.str "hello") ∧
    parseEval (displayExpr (.boolLit true)) = .ok (.bool true) ∧
    parseEval (displayExpr (.boolLit false)) = .ok (.bool false) :=
  ⟨rfl, rfl, rfl, rfl, rfl, rfl, rfl, rfl⟩

/-- Destructor for a successful `Except` bind. -/
theorem except_bind_ok {ε α β : Type} (x : Except ε α) (f : α → Except ε β)
    (b : β) : (x >>= f) = .ok b ↔ ∃ a, x = .ok a ∧ f a = .ok b := by
  cases x <;> simp [Bind.bind, Except.bind]

/-- `HashMap::insert` never returns an empty map. -/
theorem insertAssoc_ne_nil (m : List (String × Expr)) (k : String)
    (v : Expr) : insertAssoc m k v ≠ [] := by
  cases m with
  | nil => simp [insertAssoc]
  | cons p rest =>
      obtain ⟨k2, v2⟩ := p
      simp only [insertAssoc]
      split <;> simp

/-- The map-literal loop inserts its first entry before ever checking
for the closing brace, so a successful parse is never empty. -/
theorem pMapLoop_ok_nonempty :
    ∀ (fuel : Nat) (acc : List (String × Expr)) (s : PState)
      (out : List (String × Expr) × PState),
      pMapLoop fuel acc s = .ok out → out.1 ≠ [] := by
  intro fuel
  induction fuel with
  | zero => intro acc s out h; exact absurd h (by simp [pMapLoop])
  | succ n ih =>
      intro acc s out h
      simp only [pMapLoop] at h
      rw [except_bind_ok] at h
      obtain ⟨⟨key, s1⟩, _, h⟩ := h
      rw [except_bind_ok] at h
      obtain ⟨s2, _, h⟩ := h
      rw [except_bind_ok] at h
      obtain ⟨⟨v, s3⟩, _, h⟩ := h
      rw [except_bind_ok] at h
      obtain ⟨⟨tok, s4⟩, _, h⟩ := h
      split at h
      · injection h with h
        subst h
        exact insertAssoc_ne_nil acc key v
      · split at h
        · exact ih _ _ _ h
        · exact absurd h (by simp)

/-- The list-literal loop appends its first element before ever
checking for the closing bracket, so a successful parse is never
empty. -/
theorem pListLoop_ok_nonempty :
    ∀ (fuel : Nat) (acc : List Expr) (s : PState)
      (out : List Expr × PState),
      pListLoop fuel acc s = .ok out → out.1 ≠ [] := by
  intro fuel
  induction fuel with
  | zero => intro acc s out h; exact absurd h (by simp [pListLoop])
  | succ n ih =>
      intro acc s out h
      simp only [pListLoop] at h
      rw [except_bind_ok] at h
      obtain ⟨⟨v, s1⟩, _, h⟩ := h
      rw [except_bind_ok] at h
      obtain ⟨⟨tok, s2⟩, _, h⟩ := h
      split at h
      · injection h with h
        subst h
        simp
      · split at h
        · exact ih _ _ _ h
        · exact absurd h (by simp)

/-- C10: the parser never accepts an empty map or list literal —
`map_literal` parses a first `'key': expression` pair before checking
for `}` (so `{}` is a syntax error), and `list_literal` parses a first
element before checking for `]` (so `[]` never yields an `Ok` empty
list; concretely it falls into the `todo!()` panic of the atom
parser). -/
theorem c10_no_empty_literals :
    (∃ m, parseExprS "\x7b\x7d" =
      .error (.perr (.invalidQuery m)) ∧ strMentions "expected" m) ∧
    (∀ (fuel : Nat) (s : PState) (out : List (String × Expr) × PState),
      pMapLiteral fuel s = .ok out → out.1 ≠ []) ∧
    (∀ (fuel : Nat) (s : PState) (out : List Expr × PState),
      pListLiteral fuel s = .ok out → out.1 ≠ []) ∧
    parseExprS "[]" = .error .panic := by
  refine ⟨⟨"[ \x7b \x7d ] expected \x22\x27\x22 but got \x22\x7d\x22",
      rfl, "[ \x7b \x7d ] ", " \x22\x27\x22 but got \x22\x7d\x22", rfl⟩,
    ?_, ?_, rfl⟩
  · intro fuel s out h
    cases fuel with
    | zero => exact absurd h (by simp [pMapLiteral])
    | succ n =>
        simp only [pMapLiteral] at h
        rw [except_bind_ok] at h
        obtain ⟨s1, _, h⟩ := h
        exact pMapLoop_ok_nonempty n [] s1 out h
  · intro fuel s out h
    cases fuel with
    | zero => exact absurd h (by simp [pListLiteral])
    | succ n =>
        simp only [pListLiteral] at h
        rw [except_bind_ok] at h
        obtain ⟨s1, _, h⟩ := h
        exact pListLoop_ok_nonempty n [] s1 out h

/-- C10 witness: a concrete one-entry map parse is non-empty, and the
`{}` error is the stated one. -/
theorem c10_no_empty_literals_witness :
    ([("a", Expr.numberLit (Number.integer 1))] :
      List (String × Expr)) ≠ [] :=
  (c10_no_empty_literals).2.1 20 ⟨tokenize "\x7b\x27a\x27: 1\x7d", []⟩
    ([("a", Expr.numberLit (Number.integer 1))], ⟨[], (tokenize "\x7b\x27a\x27: 1\x7d").reverse⟩)
    rfl

/-- `mapHash` is the XOR fold of the per-entry digests. -/
theorem mapHash_eq_foldr (m : List (String × Any)) :
    mapHash m = (m.map entryFinish).foldr Nat.xor 0 := by
  induction m with
  | nil => rfl
  | cons p rest ih =>
      obtain ⟨k, v⟩ := p
      simp [mapHash, entryFinish, ih]

/-- XOR-combining is order-independent: permuting the entry list leaves
the map digest unchanged. -/
theorem mapHash_perm (m1 m2 : List (String × Any)) (hp : m1.Perm m2) :
    mapHash m1 = mapHash m2 := by
  rw [mapHash_eq_foldr, mapHash_eq_foldr]
  exact (hp.map entryFinish).foldr_eq 0

/-- A successful lookup is a member. -/
theorem mapGet_mem (m : List (String × Any)) (k : String) (v : Any)
    (h : mapGet m k = some v) : (k, v) ∈ m := by
  induction m with
  | nil => exact absurd h (by simp [mapGet])
  | cons p rest ih =>
      obtain ⟨k2, v2⟩ := p
      by_cases hk : k2 = k
      · subst hk
        rw [mapGet, if_pos rfl] at h
        injection h with h
        subst h
        exact List.mem_cons_self _ _
      · rw [mapGet, if_neg hk] at h
        exact List.mem_cons_of_mem _ (ih h)

/-- A successful lookup splits the list at its first occurrence of the
key. -/
theorem mapGet_split (m : List (String × Any)) (k : String) (v : Any)
    (h : mapGet m k = some v) :
    ∃ l1 l2, m = l1 ++ (k, v) :: l2 ∧ keyFree k l1 = true := by
  induction m with
  | nil => exact absurd h (by simp [mapGet])
  | cons p rest ih =>
      obtain ⟨k2, v2⟩ := p
      by_cases hk : k2 = k
      · subst hk
        rw [mapGet, if_pos rfl] at h
        injection h with h
        subst h
        exact ⟨[], rest, rfl, rfl⟩
      · rw [mapGet, if_neg hk] at h
        obtain ⟨l1, l2, hm, hf⟩ := ih h
        exact ⟨(k2, v2) :: l1, l2, by rw [hm]; rfl,
          by simp [keyFree, hf, hk]⟩

/-- Removing a middle entry whose key differs from the one looked up
does not change the lookup. -/
theorem mapGet_skip (l1 l2 : List (String × Any)) (k k2 : String)
    (v : Any) (hne : k ≠ k2) :
    mapGet (l1 ++ (k, v) :: l2) k2 = mapGet (l1 ++ l2) k2 := by
  induction l1 with
  | nil => simp [mapGet, hne]
  | cons p rest ih =>
      obtain ⟨k3, v3⟩ := p
      by_cases hk : k3 = k2
      · simp [mapGet, hk]
      · simp [mapGet, hk, ih]

/-- `keyFree` survives removing a middle entry. -/
theorem keyFree_append_middle (q : String) (l1 l2 : List (String × Any))
    (p : String × Any) (h : keyFree q (l1 ++ p :: l2) = true) :
    keyFree q (l1 ++ l2) = true := by
  induction l1 with
  | nil =>
      obtain ⟨k, v⟩ := p
      simp only [List.nil_append, keyFree, Bool.and_eq_true] at h ⊢
      exact h.2
  | cons p2 rest ih =>
      obtain ⟨k2, v2⟩ := p2
      simp only [List.cons_append, keyFree, Bool.and_eq_true] at h ⊢
      exact ⟨h.1, ih h.2⟩

/-- Key distinctness survives removing a middle entry. -/
theorem keysNodupB_append_middle (l1 l2 : List (String × Any))
    (p : String × Any) (h : keysNodupB (l1 ++ p :: l2) = true) :
    keysNodupB (l1 ++ l2) = true := by
  induction l1 with
  | nil =>
      obtain ⟨k, v⟩ := p
      simp only [List.nil_append, keysNodupB, Bool.and_eq_true] at h ⊢
      exact h.2
  | cons p2 rest ih =>
      obtain ⟨k2, v2⟩ := p2
      simp only [List.cons_append, keysNodupB, Bool.and_eq_true] at h ⊢
      exact ⟨keyFree_append_middle _ _ _ _ h.1, ih h.2⟩

/-- `keyFree` says every member's key differs. -/
theorem keyFree_forall (k : String) (m : List (String × Any))
    (h : keyFree k m = true) : ∀ p ∈ m, p.1 ≠ k := by
  induction m with
  | nil => intro p hp; exact absurd hp (by simp)
  | cons p2 rest ih =>
      obtain ⟨k2, v2⟩ := p2
      simp only [keyFree, Bool.and_eq_true, bne_iff_ne] at h
      intro p hp
      rcases List.mem_cons.mp hp with h1 | h1
      · subst h1; exact h.1
      · exact ih h.2 p h1

/-- Unfolding `mapSubEq` entrywise. -/
theorem mapSubEq_forall (m1 m2 : List (String × Any))
    (h : mapSubEq m1 m2 = true) :
    ∀ p ∈ m1, ∃ v', mapGet m2 p.1 = some v' ∧ anyEq p.2 v' = true := by
  induction m1 with
  | nil => intro p hp; exact absurd hp (by simp)
  | cons p2 rest ih =>
      obtain ⟨k2, v2⟩ := p2
      rw [mapSubEq, Bool.and_eq_true] at h
      intro p hp
      rcases List.mem_cons.mp hp with h1 | h1
      · subst h1
        rcases hget : mapGet m2 k2 with _ | v'
        · rw [hget] at h; exact absurd h.1 (by simp)
        · rw [hget] at h; exact ⟨v', rfl, h.1⟩
      · exact ih h.2 p h1

/-- `mapSubEq` only inspects the right map through lookups of the left
map's keys. -/
theorem mapSubEq_congr (m1 m2 m3 : List (String × Any))
    (hget : ∀ p ∈ m1, mapGet m3 p.1 = mapGet m2 p.1)
    (h : mapSubEq m1 m2 = true) : mapSubEq m1 m3 = true := by
  induction m1 with
  | nil => rfl
  | cons p2 rest ih =>
      obtain ⟨k2, v2⟩ := p2
      rw [mapSubEq, Bool.and_eq_true] at h ⊢
      refine ⟨?_, ih (fun p hp => hget p (List.mem_cons_of_mem _ hp)) h.2⟩
      rw [hget (k2, v2) (List.mem_cons_self _ _)]
      exact h.1

/-- Values of a no-float map are no-float. -/
theorem noFloatM_mem (m : List (String × Any)) (h : noFloatM m = true) :
    ∀ p ∈ m, noFloatA p.2 = true := by
  induction m with
  | nil => intro p hp; exact absurd hp (by simp)
  | cons p2 rest ih =>
      obtain ⟨k2, v2⟩ := p2
      rw [noFloatM, Bool.and_eq_true] at h
      intro p hp
      rcases List.mem_cons.mp hp with h1 | h1
      · subst h1; exact h.1
      · exact ih h.2 p h1

/-- Values of a well-formed map are well-formed. -/
theorem wfM_mem (m : List (String × Any)) (h : wfM m = true) :
    ∀ p ∈ m, wfA p.2 = true := by
  induction m with
  | nil => intro p hp; exact absurd hp (by simp)
  | cons p2 rest ih =>
      obtain ⟨k2, v2⟩ := p2
      rw [wfM, Bool.and_eq_true] at h
      intro p hp
      rcases List.mem_cons.mp hp with h1 | h1
      · subst h1; exact h.1
      · exact ih h.2 p h1

/-- Equal `Number`s without floats perform the same hasher write:
`write_i64` emits the same eight bytes as `write_u64` of the
reinterpreted value, so the `Integer`/`UInteger` cross-equal case
agrees. -/
theorem numberEq_hashEvt (a b : Number) (ha : a.isFloat = false)
    (hb : b.isFloat = false) (h : numberEq a b = true) :
    numberHashEvt a = numberHashEvt b := by
  cases a <;> cases b <;>
    simp_all [numberEq, numberHashEvt, Number.isFloat] <;>
    (try split at h) <;> simp_all

/-- The core of the map case: a `mapSubEq`-related pair of equal-length
maps with distinct keys has permuted per-entry digest lists, provided
each related value pair already has equal hash streams. -/
theorem mapSubEq_perm :
    ∀ (m1 m2 : List (String × Any)),
      (∀ p ∈ m1, ∀ v', mapGet m2 p.1 = some v' →
        hashStream p.2 = hashStream v') →
      m1.length = m2.length →
      keysNodupB m1 = true → keysNodupB m2 = true →
      mapSubEq m1 m2 = true →
      (m1.map entryFinish).Perm (m2.map entryFinish) := by
  intro m1
  induction m1 with
  | nil =>
      intro m2 _ hlen _ _ _
      have : m2 = [] := List.eq_nil_of_length_eq_zero hlen.symm
      subst this
      exact List.Perm.refl _
  | cons p rest ih =>
      intro m2 hrec hlen hnd1 hnd2 hsub
      obtain ⟨k, v⟩ := p
      rw [mapSubEq, Bool.and_eq_true] at hsub
      rcases hget : mapGet m2 k with _ | v'
      · rw [hget] at hsub; exact absurd hsub.1 (by simp)
      · rw [hget] at hsub
        obtain ⟨l1, l2, hm2, hfree⟩ := mapGet_split m2 k v' hget
        rw [keysNodupB, Bool.and_eq_true] at hnd1
        have hrestk : ∀ p2 ∈ rest, p2.1 ≠ k := keyFree_forall k rest hnd1.1
        have hskip : ∀ p2 ∈ rest, mapGet (l1 ++ l2) p2.1 = mapGet m2 p2.1 := by
          intro p2 hp2
          rw [hm2, mapGet_skip l1 l2 k p2.1 v' (fun hc => hrestk p2 hp2 hc.symm)]
        have hlen2 : rest.length = (l1 ++ l2).length := by
          rw [hm2] at hlen
          simp only [List.length_cons, List.length_append] at hlen ⊢
          omega
        have hnd2' : keysNodupB (l1 ++ l2) = true := by
          rw [hm2] at hnd2
          exact keysNodupB_append_middle l1 l2 (k, v') hnd2
        have hsub' : mapSubEq rest (l1 ++ l2) = true :=
          mapSubEq_congr rest m2 (l1 ++ l2) hskip hsub.2
        have hrec' : ∀ p2 ∈ rest, ∀ v2, mapGet (l1 ++ l2) p2.1 = some v2 →
            hashStream p2.2 = hashStream v2 := by
          intro p2 hp2 v2 hg
          refine hrec p2 (List.mem_cons_of_mem _ hp2) v2 ?_
          rw [← hskip p2 hp2]
          exact hg
        have hperm := ih (l1 ++ l2) hrec' hlen2 hnd1.2 hnd2' hsub'
        have hhead : entryFinish (k, v) = entryFinish (k, v') := by
          unfold entryFinish
          rw [hrec (k, v) (List.mem_cons_self _ _) v' hget]
        have h1 : ((k, v) :: rest).map entryFinish
            = entryFinish (k, v') :: rest.map entryFinish := by simp [hhead]
        have h2 : (entryFinish (k, v') :: rest.map entryFinish).Perm
            (entryFinish (k, v') :: (l1 ++ l2).map entryFinish) :=
          hperm.cons _
        have h3 : (entryFinish (k, v') :: (l1 ++ l2).map entryFinish).Perm
            ((l1 ++ (k, v') :: l2).map entryFinish) := by
          simp only [List.map_append, List.map_cons]
          exact List.perm_middle.symm
        rw [h1, hm2]
        exact h2.trans h3

/-- Element-wise consequences of `Vec` equality, given a hash-equality
oracle for the elements. -/
theorem listEq_components :
    ∀ (xs ys : List Any),
      (∀ x ∈ xs, ∀ y, wfA x = true → wfA y = true → noFloatA x = true →
        noFloatA y = true → anyEq x y = true → hashStream x = hashStream y) →
      wfL xs = true → wfL ys = true → noFloatL xs = true →
      noFloatL ys = true → listEq xs ys = true →
      xs.length = ys.length ∧ listStream xs = listStream ys := by
  intro xs
  induction xs with
  | nil =>
      intro ys _ _ _ _ _ h
      cases ys with
      | nil => exact ⟨rfl, rfl⟩
      | cons y ys => exact absurd h (by simp [listEq])
  | cons x xs ih =>
      intro ys hrec hwx hwy hnx hny h
      cases ys with
      | nil => exact absurd h (by simp [listEq])
      | cons y ys =>
          rw [listEq, Bool.and_eq_true] at h
          rw [wfL, Bool.and_eq_true] at hwx hwy
          rw [noFloatL, Bool.and_eq_true] at hnx hny
          have hx := hrec x (List.mem_cons_self _ _) y hwx.1 hwy.1
            hnx.1 hny.1 h.1
          have ihr := ih ys (fun x2 hx2 => hrec x2 (List.mem_cons_of_mem _ hx2))
            hwx.2 hwy.2 hnx.2 hny.2 h.2
          exact ⟨by simp [ihr.1],
            by rw [listStream, listStream, hx, ihr.2]⟩

/-- Strong-induction core of the amended C7: on well-formed, float-free
values, `PartialEq` equality implies identical hasher write streams. -/
theorem eqHashAux :
    ∀ (n : Nat) (x y : Any), sizeOf x ≤ n →
      wfA x = true → wfA y = true → noFloatA x = true → noFloatA y = true →
      anyEq x y = true → hashStream x = hashStream y := by
  intro n
  induction n with
  | zero =>
      intro x y hle
      exact absurd hle (by cases x <;> simp)
  | succ n ih =>
      intro x y hle hwx hwy hnx hny heq
      cases x <;> cases y <;> simp only [anyEq] at heq <;>
        try exact Bool.noConfusion heq
      case null.null => rfl
      case str.str s1 s2 =>
        rw [beq_iff_eq] at heq
        subst heq
        rfl
      case bytes.bytes b1 b2 =>
        rw [beq_iff_eq] at heq
        subst heq
        rfl
      case number.number a b =>
        simp only [noFloatA, Bool.not_eq_true'] at hnx hny
        rw [hashStream, hashStream, numberEq_hashEvt a b hnx hny heq]
      case bool.bool b1 b2 =>
        rw [beq_iff_eq] at heq
        subst heq
        rfl
      case list.list xs ys =>
        simp only [wfA] at hwx hwy
        simp only [noFloatA] at hnx hny
        have hsz : sizeOf xs ≤ n := by
          have := hle
          simp only [Any.list.sizeOf_spec] at this
          omega
        have hrec : ∀ x2 ∈ xs, ∀ y2, wfA x2 = true → wfA y2 = true →
            noFloatA x2 = true → noFloatA y2 = true → anyEq x2 y2 = true →
            hashStream x2 = hashStream y2 := by
          intro x2 hx2 y2
          have hlt := List.sizeOf_lt_of_mem hx2
          exact ih x2 y2 (by omega)
        obtain ⟨hlen, hstream⟩ :=
          listEq_components xs ys hrec hwx hwy hnx hny heq
        rw [hashStream, hashStream, hlen, hstream]
      case map.map m1 m2 =>
        rw [Bool.and_eq_true, beq_iff_eq] at heq
        simp only [wfA, Bool.and_eq_true] at hwx hwy
        simp only [noFloatA] at hnx hny
        have hsz : sizeOf m1 ≤ n := by
          have := hle
          simp only [Any.map.sizeOf_spec] at this
          omega
        have hrec : ∀ p ∈ m1, ∀ v', mapGet m2 p.1 = some v' →
            hashStream p.2 = hashStream v' := by
          intro p hp v' hget
          obtain ⟨v2, hget2, heq2⟩ := mapSubEq_forall m1 m2 heq.2 p hp
          rw [hget] at hget2
          injection hget2 with hv2
          subst hv2
          have hlt := List.sizeOf_lt_of_mem hp
          have hszp : sizeOf p.2 ≤ n := by
            obtain ⟨pk, pv⟩ := p
            simp only [Prod.mk.sizeOf_spec] at hlt
            simp only []
            omega
          exact ih p.2 v' hszp (wfM_mem m1 hwx.2 p hp)
            (wfM_mem m2 hwy.2 _ (mapGet_mem m2 p.1 v' hget))
            (noFloatM_mem m1 hnx p hp)
            (noFloatM_mem m2 hny _ (mapGet_mem m2 p.1 v' hget))
            heq2
        have hperm := mapSubEq_perm m1 m2 hrec heq.1 hwx.1 hwy.1 heq.2
        rw [hashStream, hashStream, mapHash_eq_foldr, mapHash_eq_foldr,
          hperm.foldr_eq]

/-- C7, counterexample: cross-representation equality does not imply
hash equality for floats — `Float(1.0)` equals `Integer(1)` under
`PartialEq for Number`, but `Hash for Number` writes the float's raw
IEEE bits (`to_bits(1.0) = 0x3FF0000000000000`, not `1`), so the two
perform different hasher writes. -/
theorem c7_float_int_hash_counterexample :
    anyEq (.number (.float ⟨1, 1⟩)) (.number (.integer 1)) = true ∧
    numberEq (.float ⟨1, 1⟩) (.integer 1) = true ∧
    (hashStream (.number (.float ⟨1, 1⟩)) ==
      hashStream (.number (.integer 1))) = false :=
  ⟨rfl, rfl, rfl⟩

/-- C7 (amended): on float-free values (with the `HashMap` unique-key
invariant), equality does imply hash equality — including the
`Integer`/`UInteger` cross-representation case — and map hashing is
order-independent, XOR-combining one digest per entry; the float cases
are the exception the counterexample exhibits. -/
theorem c7_eq_hash_amended :
    (∀ x y : Any, wfA x = true → wfA y = true → noFloatA x = true →
      noFloatA y = true → anyEq x y = true →
      hashStream x = hashStream y) ∧
    (∀ m1 m2 : List (String × Any), m1.Perm m2 →
      hashStream (.map m1) = hashStream (.map m2)) :=
  ⟨fun x y => eqHashAux (sizeOf x) x y (Nat.le_refl _),
    fun m1 m2 hp => by rw [hashStream, hashStream, mapHash_perm m1 m2 hp]⟩

/-- C7 witness: `Integer(1)` and `UInteger(1)` are cross-representation
equal and hash equal, and a two-entry map hashes the same in either
entry order. -/
theorem c7_eq_hash_amended_witness :
    hashStream (.number (.integer 1)) = hashStream (.number (.uinteger 1)) ∧
    hashStream (.map [("a", .number (.integer 1)), ("b", .bool true)]) =
      hashStream (.map [("b", .bool true), ("a", .number (.integer 1))]) :=
  ⟨c7_eq_hash_amended.1 (.number (.integer 1)) (.number (.uinteger 1))
      rfl rfl rfl rfl rfl,
    c7_eq_hash_amended.2 _ _
      (List.Perm.swap ("b", Any.bool true) ("a", Any.number (Number.integer 1)) [])⟩
